import Mathlib

/-!
Verification of the text-charset-detection library (detcharset.cpp).

The embedding mirrors the C++ source. Raw memory is modelled as a total
function mem : Nat -> Nat (the C++ walks raw unsigned-char pointers), and
the buffer is the index range [0, L). Pointer comparisons such as
ucharPtr > charBufEndPtr - k are written stop < p + k, which is the exact
integer meaning of the pointer arithmetic. Diagnostic strings are
abstracted to records carrying the error category, the byte offset and
the dumped raw bytes; the human-readable rendering is dropped.
-/

set_option maxRecDepth 10000

/-- Compile-time constants from detcharset.cpp (detail namespace). -/
def UTF8_MAX_CHAR_SIZE : Nat := 4

def UTF8_NO_BOM_TEXT_SAMPLE_SIZE : Nat := 0

def UTF8_TINY_MODE_SIZE_LIMIT : Nat := 1000000000

def UTF8_SUBCLASSIFY_TOO_LONG_SEQUENCES : Bool := true

def UTF8_DETAILED_ERROR_LIST : Bool := true

/-- Categories of the diagnostic lines emitted by the scanner; each tag
corresponds to one reason-string shape in detcharset.cpp. -/
inductive DiagCat where
  | invalidLeading
  | contTruncated
  | contMismatch
  | controlChar
  | unknownEnd1
  | overlong2
  | unknownEnd2
  | overlong3
  | surrogateHalf
  | unknownEnd3
  | overlong4
  | codePointF4
  | codePointNonF4
  | unknownFallback
  | noRoom2
  | noRoom3
  | noRoom4
  | foundInvalid
deriving DecidableEq, Repr

/-- One diagnostic record: category, byte offset of the offending position,
the raw bytes dumped into the message, and whether the message carries the
end-of-buffer marker. -/
structure Diag where
  cat : DiagCat
  pos : Nat
  bytes : List Nat
  endOfBuffer : Bool
deriving DecidableEq, Repr

/-- Bytes mem p, mem (p+1), ..., mem (p+n-1), as dumped by UcharSeqToBinStr. -/
def memSlice (mem : Nat → Nat) (p n : Nat) : List Nat :=
  (List.range n).map (fun j => mem (p + j))

/-- detcharset.cpp UTF8CharASCII7: 7-bit ASCII excluding control codes other
than TAB, LF, CR. -/
def UTF8CharASCII7 (b0 : Nat) : Bool :=
  b0 == 0x09 || b0 == 0x0A || b0 == 0x0D ||
  (decide (0x20 ≤ b0) && decide (b0 ≤ 0x7E))

/-- detcharset.cpp UTF8InvalidControlChar: high bit clear and not ASCII-valid. -/
def UTF8InvalidControlChar (b0 : Nat) : Bool :=
  (b0 &&& 0b10000000 == 0) && !UTF8CharASCII7 b0

/-- detcharset.cpp UTF8CharValid2Bytes. -/
def UTF8CharValid2Bytes (b0 b1 : Nat) : Bool :=
  (decide (0xC2 ≤ b0) && decide (b0 ≤ 0xDF)) &&
  (decide (0x80 ≤ b1) && decide (b1 ≤ 0xBF))

/-- detcharset.cpp UTF8Invalid2BytesOverlong. -/
def UTF8Invalid2BytesOverlong (b0 : Nat) : Bool :=
  decide (0xC0 ≤ b0) && decide (b0 ≤ 0xC1)

/-- detcharset.cpp UTF8CharValid3Bytes. -/
def UTF8CharValid3Bytes (b0 b1 b2 : Nat) : Bool :=
  (((decide (0xE1 ≤ b0) && decide (b0 ≤ 0xEC)) || b0 == 0xEE || b0 == 0xEF) &&
    (decide (0x80 ≤ b1) && decide (b1 ≤ 0xBF)) &&
    (decide (0x80 ≤ b2) && decide (b2 ≤ 0xBF)))
  ||
  (b0 == 0xE0 &&
    (decide (0xA0 ≤ b1) && decide (b1 ≤ 0xBF)) &&
    (decide (0x80 ≤ b2) && decide (b2 ≤ 0xBF)))
  ||
  (b0 == 0xED &&
    (decide (0x80 ≤ b1) && decide (b1 ≤ 0x9F)) &&
    (decide (0x80 ≤ b2) && decide (b2 ≤ 0xBF)))

/-- detcharset.cpp UTF8Invalid3BytesOverlong. -/
def UTF8Invalid3BytesOverlong (b0 b1 : Nat) : Bool :=
  b0 == 0xE0 && (decide (0x80 ≤ b1) && decide (b1 ≤ 0x9F))

/-- detcharset.cpp UTF8Invalid3BytesSurrogateHalf. -/
def UTF8Invalid3BytesSurrogateHalf (b0 b1 : Nat) : Bool :=
  b0 == 0xED && (decide (0xA0 ≤ b1) && decide (b1 ≤ 0xBF))

/-- detcharset.cpp UTF8CharValid4Bytes. -/
def UTF8CharValid4Bytes (b0 b1 b2 b3 : Nat) : Bool :=
  (b0 == 0xF0 &&
    (decide (0x90 ≤ b1) && decide (b1 ≤ 0xBF)) &&
    (decide (0x80 ≤ b2) && decide (b2 ≤ 0xBF)) &&
    (decide (0x80 ≤ b3) && decide (b3 ≤ 0xBF)))
  ||
  ((decide (0xF1 ≤ b0) && decide (b0 ≤ 0xF3)) &&
    (decide (0x80 ≤ b1) && decide (b1 ≤ 0xBF)) &&
    (decide (0x80 ≤ b2) && decide (b2 ≤ 0xBF)) &&
    (decide (0x80 ≤ b3) && decide (b3 ≤ 0xBF)))
  ||
  (b0 == 0xF4 &&
    (decide (0x80 ≤ b1) && decide (b1 ≤ 0x8F)) &&
    (decide (0x80 ≤ b2) && decide (b2 ≤ 0xBF)) &&
    (decide (0x80 ≤ b3) && decide (b3 ≤ 0xBF)))

/-- detcharset.cpp UTF8Invalid4BytesOverlong. The condition is transcribed
verbatim: the second byte is tested against [0x80, 0xBF] (the source comment
announces 0b10000000..0b10001111, i.e. [0x80, 0x8F], but the code compares
with 0xBF). -/
def UTF8Invalid4BytesOverlong (b0 b1 : Nat) : Bool :=
  b0 == 0xF0 && (decide (0x80 ≤ b1) && decide (b1 ≤ 0xBF))

/-- detcharset.cpp UTF8InvalidCodePoint4BytesF4, returning the decoded code
point through an Option instead of the out parameter. The guard is
transcribed verbatim: the source tests 0x90 <= b1 and 0xBF <= b1 (the second
comparison is reversed with respect to the comment, which announces
0b10010000..0b10111111, i.e. b1 <= 0xBF). -/
def UTF8InvalidCodePoint4BytesF4 (b0 b1 b2 b3 : Nat) : Option Nat :=
  if b0 == 0xF4 && (decide (0x90 ≤ b1) && decide (0xBF ≤ b1)) then
    some (((b1 &&& 0b00111111) <<< 12) |||
          ((b2 &&& 0b00111111) <<< 6) |||
          (b3 &&& 0b00111111))
  else
    none

/-- detcharset.cpp UTF8InvalidCodePoint4BytesNonF4. -/
def UTF8InvalidCodePoint4BytesNonF4 (b0 : Nat) : Bool :=
  decide (0xF5 ≤ b0) && decide (b0 ≤ 0xF7)

/-- detcharset.cpp UTF8IsValidLeadingByte: returns (validity, sequence
length), following the successive right shifts of the source. -/
def UTF8IsValidLeadingByte (b : Nat) : Bool × Nat :=
  if UTF8_SUBCLASSIFY_TOO_LONG_SEQUENCES && (b >>> 2 == 0b111110) then
    (false, 5)
  else if UTF8_SUBCLASSIFY_TOO_LONG_SEQUENCES && (b >>> 1 == 0b1111110) then
    (false, 6)
  else if UTF8_SUBCLASSIFY_TOO_LONG_SEQUENCES && (b >>> 1 == 0b1111111) then
    (false, 1)
  else if b >>> 3 == 0b11110 then
    (true, 4)
  else if b >>> 4 == 0b1110 then
    (true, 3)
  else if b >>> 5 == 0b110 then
    (true, 2)
  else if b >>> 7 == 0 then
    (true, 1)
  else
    (false, 1)

/-- detcharset.cpp UTF8IsContinuationByte. -/
def UTF8IsContinuationByte (b : Nat) : Bool :=
  b &&& 0b11000000 == 0b10000000

/-- The for loop of UTF8InvalidNrOfContinuationBytes: starting at offset idx,
scan n bytes and return the offset of the first non-continuation byte, if
any. -/
def findMismatchAux (byteAt : Nat → Nat) : Nat → Nat → Option Nat
  | _, 0 => none
  | idx, n + 1 =>
    if UTF8IsContinuationByte (byteAt idx) then
      findMismatchAux byteAt (idx + 1) n
    else
      some idx

/-- Output of UTF8InvalidNrOfContinuationBytes: the two set-only flags and
whereToContinueChecking as an offset from the leading byte (none models the
nullptr initial value, i.e. the pointer was never set). -/
structure ContResult where
  truncated : Bool
  mismatch : Bool
  resume : Option Nat
deriving DecidableEq, Repr

/-- detcharset.cpp UTF8InvalidNrOfContinuationBytes. byteAt j is the byte at
offset j from the leading byte; k is requiredContinuationBytes; r is
bufferRemains. The loop runs over offsets 1..checkUntil-1; in the truncated
case whereToContinueChecking is first set to offset r and may then be
overwritten by the offset of a mismatching byte found inside the readable
range. -/
def UTF8InvalidNrOfContinuationBytes (byteAt : Nat → Nat) (k r : Nat) :
    ContResult :=
  let truncated := decide (k + 1 > r)
  let checkUntil := if k + 1 > r then r else k + 1
  let resume0 : Option Nat := if k + 1 > r then some r else none
  match findMismatchAux byteAt 1 (checkUntil - 1) with
  | some i => ⟨truncated, true, some i⟩
  | none => ⟨truncated, false, resume0⟩

/-- detcharset.cpp UTF8InvalidLeadingOrContinuation: returns none when
neither primary error applies, otherwise the new cursor and the diagnostic.
The buffer start is index 0, so the reported position is p itself. -/
def UTF8InvalidLeadingOrContinuation (mem : Nat → Nat) (stop p : Nat) :
    Option (Nat × Diag) :=
  let lead := UTF8IsValidLeadingByte (mem p)
  if lead.1 = false then
    let bytesToRead := if stop - p < lead.2 then stop - p else lead.2
    let eob := decide (stop - p < lead.2)
    some (p + bytesToRead, ⟨.invalidLeading, p, memSlice mem p bytesToRead, eob⟩)
  else
    let res := UTF8InvalidNrOfContinuationBytes (fun j => mem (p + j))
      (lead.2 - 1) (stop - p)
    if res.truncated then
      some (p + res.resume.getD 0, ⟨.contTruncated, p, memSlice mem p (stop - p), true⟩)
    else if res.mismatch then
      some (p + res.resume.getD 0, ⟨.contMismatch, p, memSlice mem p lead.2, false⟩)
    else
      none

/-- detcharset.cpp UTF8CheckErrors: classifies an already-failed position,
returning the cursor to resume from and the emitted diagnostics. -/
def UTF8CheckErrors (mem : Nat → Nat) (stop p : Nat) : Nat × List Diag :=
  if stop < p + 1 then
    (p, [])
  else
    match UTF8InvalidLeadingOrContinuation mem stop p with
    | some (p', d) => (p', [d])
    | none =>
      if UTF8InvalidControlChar (mem p) then
        (p + 1, [⟨.controlChar, p, memSlice mem p 1, false⟩])
      else if stop < p + 2 then
        (stop, [⟨.unknownEnd1, p, memSlice mem p (stop - p), true⟩])
      else if UTF8Invalid2BytesOverlong (mem p) then
        (p + 2, [⟨.overlong2, p, memSlice mem p 2, false⟩])
      else if stop < p + 3 then
        (stop, [⟨.unknownEnd2, p, memSlice mem p (stop - p), true⟩])
      else if UTF8Invalid3BytesOverlong (mem p) (mem (p + 1)) then
        (p + 3, [⟨.overlong3, p, memSlice mem p 3, false⟩])
      else if UTF8Invalid3BytesSurrogateHalf (mem p) (mem (p + 1)) then
        (p + 3, [⟨.surrogateHalf, p, memSlice mem p 3, false⟩])
      else if stop < p + 4 then
        (stop, [⟨.unknownEnd3, p, memSlice mem p (stop - p), true⟩])
      else if UTF8Invalid4BytesOverlong (mem p) (mem (p + 1)) then
        (p + 4, [⟨.overlong4, p, memSlice mem p 4, false⟩])
      else
        match UTF8InvalidCodePoint4BytesF4 (mem p) (mem (p + 1)) (mem (p + 2))
          (mem (p + 3)) with
        | some _ => (p + 4, [⟨.codePointF4, p, memSlice mem p 4, false⟩])
        | none =>
          if UTF8InvalidCodePoint4BytesNonF4 (mem p) then
            (p + 4, [⟨.codePointNonF4, p, memSlice mem p 4, false⟩])
          else
            let safeBufDumpSize := if 16 < stop - p then 16 else stop - p
            (p + 1, [⟨.unknownFallback, p, memSlice mem p safeBufDumpSize, false⟩])

/-- Result of one UTF8CharValidate call: the (possibly advanced) cursor, the
two per-character flags and any emitted diagnostics. In the source the two
flags are left untouched on the unreachable no-room entry branch; since the
caller AND-accumulates them, that branch is modelled with the neutral values
(true, true). -/
structure ValidateResult where
  cursor : Nat
  thisValid : Bool
  thisAscii : Bool
  diags : List Diag
deriving DecidableEq, Repr

/-- detcharset.cpp UTF8CharValidate, template parameter bBufferEndCheck as
first argument. -/
def UTF8CharValidate (bc : Bool) (mem : Nat → Nat) (stop p : Nat) :
    ValidateResult :=
  if bc && decide (stop < p + 1) then
    ⟨p, true, true, []⟩
  else if UTF8CharASCII7 (mem p) then
    ⟨p + 1, true, true, []⟩
  else
    if bc && decide (stop < p + 2) then
      ⟨p, false, false, [⟨.noRoom2, p, [], false⟩]⟩
    else if UTF8CharValid2Bytes (mem p) (mem (p + 1)) then
      ⟨p + 2, true, false, []⟩
    else if bc && decide (stop < p + 3) then
      ⟨p, false, false, [⟨.noRoom3, p, [], false⟩]⟩
    else if UTF8CharValid3Bytes (mem p) (mem (p + 1)) (mem (p + 2)) then
      ⟨p + 3, true, false, []⟩
    else if bc && decide (stop < p + 4) then
      ⟨p, false, false, [⟨.noRoom4, p, [], false⟩]⟩
    else if UTF8CharValid4Bytes (mem p) (mem (p + 1)) (mem (p + 2)) (mem (p + 3)) then
      ⟨p + 4, true, false, []⟩
    else
      ⟨p, false, false, [⟨.foundInvalid, p, [], false⟩]⟩

/-- Running state of the scan driver: cursor, the two AND-accumulated
verdict booleans and the append-only diagnostic log. -/
structure ScanState where
  cursor : Nat
  validUTF8 : Bool
  asciiOnly : Bool
  diags : List Diag
deriving DecidableEq, Repr

/-- One iteration of the while loop of CheckStreamForUTF8NoBOMInternal:
validate at the cursor, fold the per-character flags, and on failure run the
error classifier. -/
def scanStep (bc : Bool) (mem : Nat → Nat) (stop : Nat) (st : ScanState) :
    ScanState :=
  let r := UTF8CharValidate bc mem stop st.cursor
  let st' : ScanState :=
    ⟨r.cursor, st.validUTF8 && r.thisValid, st.asciiOnly && r.thisAscii,
      st.diags ++ r.diags⟩
  if r.thisValid then
    st'
  else
    let e := UTF8CheckErrors mem stop r.cursor
    ⟨e.1, st'.validUTF8, st'.asciiOnly, st'.diags ++ e.2⟩

/-- The while loop of CheckStreamForUTF8NoBOMInternal, with explicit fuel.
The early break of the source fires only when UTF8_DETAILED_ERROR_LIST is
false; with the repository's constant (true) the branch is inert, so placing
it after the whole iteration is behaviourally exact. -/
def scanLoop (bc : Bool) (mem : Nat → Nat) (stop : Nat) :
    Nat → ScanState → ScanState
  | 0, st => st
  | fuel + 1, st =>
    if st.cursor < stop then
      let st' := scanStep bc mem stop st
      if !st'.validUTF8 && !UTF8_DETAILED_ERROR_LIST then
        st'
      else
        scanLoop bc mem stop fuel st'
    else
      st

/-- detcharset.cpp CheckStreamForUTF8NoBOMInternal: run the scan from cursor
0 with both flags initially true. The fuel stop is sufficient because the
cursor strictly increases on every iteration. -/
def CheckStreamForUTF8NoBOMInternal (bc : Bool) (mem : Nat → Nat)
    (stop : Nat) : ScanState :=
  scanLoop bc mem stop stop ⟨0, true, true, []⟩

/-- The byte memory induced by a finite buffer: in-range indices read the
buffer, out-of-range indices read the junk value 0. -/
def memOf (buf : List Nat) : Nat → Nat :=
  fun i => buf.getD i 0

/-- Final decision of CheckStreamForUTF8NoBOM from the scan state: pure
7-bit ASCII yields false, otherwise the validity flag is returned. -/
def utf8NoBOMVerdict (st : ScanState) : Bool :=
  if st.asciiOnly then false else st.validUTF8

/-- CheckStreamForUTF8NoBOM with the scanning mode as an explicit parameter:
bounds-checked mode scans the whole buffer, unchecked mode stops
UTF8_MAX_CHAR_SIZE bytes before the end. -/
def utf8NoBOMDecisionMode (bc : Bool) (buf : List Nat) : Bool :=
  let stop := if bc then buf.length else buf.length - UTF8_MAX_CHAR_SIZE
  utf8NoBOMVerdict (CheckStreamForUTF8NoBOMInternal bc (memOf buf) stop)

/-- detcharset.cpp CheckStreamForUTF8NoBOM on an already-sampled buffer
(ReadSampleToBuffer with sample size 0 reads the whole stream): buffers of
at least UTF8_TINY_MODE_SIZE_LIMIT bytes use the unchecked mode, smaller
ones the bounds-checked mode. -/
def CheckStreamForUTF8NoBOM (buf : List Nat) : Bool :=
  utf8NoBOMDecisionMode (decide (buf.length < UTF8_TINY_MODE_SIZE_LIMIT)) buf

/-- Greedy decomposition of a buffer into character chunks accepted by the
per-length validity tests of detcharset.cpp; this is the validity envelope
the engine itself recognizes (raw control bytes are excluded, exactly as the
scanner treats them). -/
def validUtf8Chunks : List Nat → Bool
  | [] => true
  | b0 :: r0 =>
    if UTF8CharASCII7 b0 then
      validUtf8Chunks r0
    else
      match r0 with
      | [] => false
      | b1 :: r1 =>
        if UTF8CharValid2Bytes b0 b1 then
          validUtf8Chunks r1
        else
          match r1 with
          | [] => false
          | b2 :: r2 =>
            if UTF8CharValid3Bytes b0 b1 b2 then
              validUtf8Chunks r2
            else
              match r2 with
              | [] => false
              | b3 :: r3 =>
                if UTF8CharValid4Bytes b0 b1 b2 b3 then
                  validUtf8Chunks r3
                else
                  false

/-- A seekable input stream: contents, read position and the two state
bits of std::ifstream that the source manipulates. -/
structure ByteStream where
  data : List Nat
  pos : Nat
  failbit : Bool
  eofbit : Bool
deriving DecidableEq, Repr

/-- std::ifstream::read: on a good stream, read up to n bytes from the
current position, returning (bytes, gcount, new stream); a short read sets
both eofbit and failbit. -/
def ByteStream.read (s : ByteStream) (n : Nat) :
    List Nat × Nat × ByteStream :=
  if s.failbit || s.eofbit then
    ([], 0, { s with failbit := true })
  else
    let avail := s.data.length - s.pos
    if n ≤ avail then
      ((s.data.drop s.pos).take n, n, { s with pos := s.pos + n })
    else
      (s.data.drop s.pos, avail,
        { s with pos := s.data.length, failbit := true, eofbit := true })

/-- std::ifstream::clear. -/
def ByteStream.clear (s : ByteStream) : ByteStream :=
  { s with failbit := false, eofbit := false }

/-- std::ifstream::seekg: fails (is a no-op) on a failed stream, otherwise
moves the position and clears eofbit. -/
def ByteStream.seekg (s : ByteStream) (p : Nat) : ByteStream :=
  if s.failbit then s else { s with pos := p, eofbit := false }

/-- The tri-state result of CheckStreamForSignature
(SIGNATURE_CHECK_RESULT_FAIL / NOT_FOUND / FOUND). -/
inductive SigResult where
  | fail
  | notFound
  | found
deriving DecidableEq, Repr

/-- detcharset.cpp CheckStreamForSignature: compare a fixed signature
against the bytes at the current stream position; consume on success,
restore on failure. -/
def CheckStreamForSignature (s : ByteStream) (sig : List Nat) :
    SigResult × ByteStream :=
  if s.failbit then
    (.fail, s)
  else if s.eofbit then
    (.fail, s)
  else
    let saved := s.pos
    let rd := s.read sig.length
    if rd.2.1 < sig.length then
      (.notFound, (rd.2.2.clear).seekg saved)
    else if rd.1 ≠ sig then
      let s2 := if rd.2.2.failbit then rd.2.2.clear else rd.2.2
      (.notFound, s2.seekg saved)
    else
      (.found, rd.2.2)

/-- detcharset.cpp CheckStreamForUTF8BOM: true iff the three UTF-8 BOM
bytes are present at the current position. -/
def CheckStreamForUTF8BOM (s : ByteStream) : Bool × ByteStream :=
  match CheckStreamForSignature s [0xEF, 0xBB, 0xBF] with
  | (.fail, s') => (false, s')
  | (.notFound, s') => (false, s')
  | (.found, s') => (true, s')

/-- detcharset.cpp CheckStreamForUTF16BOM: little-endian signature first,
then big-endian. Returns (found, bLittleEndian, stream); the incoming value
of the bLittleEndian out parameter is passed in and returned unchanged on
the paths that do not assign it. -/
def CheckStreamForUTF16BOM (s : ByteStream) (bLittleEndian : Bool) :
    Bool × Bool × ByteStream :=
  match CheckStreamForSignature s [0xFF, 0xFE] with
  | (.fail, s') => (false, bLittleEndian, s')
  | (.found, s') => (true, true, s')
  | (.notFound, s') =>
    match CheckStreamForSignature s' [0xFE, 0xFF] with
    | (.fail, s'') => (false, bLittleEndian, s'')
    | (.notFound, s'') => (false, bLittleEndian, s'')
    | (.found, s'') => (true, false, s'')

/-! Helper lemmas about the byte classifiers. -/

theorem ascii7_false_of_ge (b : Nat) (h : 0x80 ≤ b) : UTF8CharASCII7 b = false := by
  simp only [UTF8CharASCII7, Bool.or_eq_false_iff, Bool.and_eq_false_iff,
    beq_eq_false_iff_ne, ne_eq, decide_eq_false_iff_not, not_le]
  omega

theorem valid2_lead (b0 b1 : Nat) (h : UTF8CharValid2Bytes b0 b1 = true) :
    0xC2 ≤ b0 ∧ b0 ≤ 0xDF := by
  simp only [UTF8CharValid2Bytes, Bool.and_eq_true, decide_eq_true_eq] at h
  omega

theorem valid3_lead (b0 b1 b2 : Nat) (h : UTF8CharValid3Bytes b0 b1 b2 = true) :
    0xE0 ≤ b0 ∧ b0 ≤ 0xEF := by
  simp only [UTF8CharValid3Bytes, Bool.or_eq_true, Bool.and_eq_true,
    decide_eq_true_eq, beq_iff_eq] at h
  omega

theorem valid4_lead (b0 b1 b2 b3 : Nat) (h : UTF8CharValid4Bytes b0 b1 b2 b3 = true) :
    0xF0 ≤ b0 ∧ b0 ≤ 0xF4 := by
  simp only [UTF8CharValid4Bytes, Bool.or_eq_true, Bool.and_eq_true,
    decide_eq_true_eq, beq_iff_eq] at h
  omega

theorem valid2_false_of_lead_ge (b0 b1 : Nat) (h : 0xE0 ≤ b0) :
    UTF8CharValid2Bytes b0 b1 = false := by
  simp only [UTF8CharValid2Bytes, Bool.and_eq_false_iff, decide_eq_false_iff_not, not_le]
  omega

theorem valid3_false_of_lead_ge (b0 b1 b2 : Nat) (h : 0xF0 ≤ b0) :
    UTF8CharValid3Bytes b0 b1 b2 = false := by
  simp only [UTF8CharValid3Bytes, Bool.or_eq_false_iff, Bool.and_eq_false_iff,
    beq_eq_false_iff_ne, ne_eq, decide_eq_false_iff_not, not_le]
  omega

/-! C9: the 4-byte-overlong classifier. The claim says it holds iff the lead
is 0xF0 and the second byte lies in [0x80, 0x8F]; the code compares the
second byte with 0xBF instead of 0x8F (contradicting its own comment). -/

/-- C9: the code's 4-byte-overlong test accepts the pair (0xF0, 0x90) even
though the claim (and the comment in the source) require the second byte to
be at most 0x8F; indeed 0xF0 0x90 0x80 0x80 starts a valid 4-byte sequence
(U+10000) by the code's own validity test. -/
theorem c9_overlong4_eval :
    UTF8Invalid4BytesOverlong 0xF0 0x90 = true ∧
    UTF8CharValid4Bytes 0xF0 0x90 0x80 0x80 = true := by
  decide

/-! C3: out-of-range rejection via 0xF4. The source guard reads
0x90 <= b1 and 0xBF <= b1 (the second comparison is reversed), so the
quadruple F4 90 80 80 does not match the F4 error class and falls through
to the unknown-error fallback; moreover the decoded code point omits the
contribution of the leading byte, so even matching sequences decode to at
most 0x3FFFF, never above U+10FFFF. -/

/-- C3: the F4 out-of-range classifier rejects F4 90 80 80 (the claim says
it must match), the error classifier therefore emits the unknown-error
fallback diagnostic and advances by 1; and on an input the classifier does
match (F4 BF 80 80) the decoded code point is 0x3F000, which is not above
U+10FFFF. -/
theorem c3_f4_eval :
    UTF8InvalidCodePoint4BytesF4 0xF4 0x90 0x80 0x80 = none ∧
    UTF8CheckErrors (memOf [0xF4, 0x90, 0x80, 0x80]) 4 0 =
      (1, [⟨.unknownFallback, 0, [0xF4, 0x90, 0x80, 0x80], false⟩]) ∧
    UTF8InvalidCodePoint4BytesF4 0xF4 0xBF 0x80 0x80 = some 0x3F000 ∧
    0x3F000 ≤ 0x10FFFF := by
  refine ⟨by decide, ?_, by decide, by decide⟩
  decide

/-! C4: the continuation verifier in the truncated case. -/

theorem findMismatchAux_some (f : Nat → Nat) :
    ∀ (n idx m : Nat), findMismatchAux f idx n = some m →
      idx ≤ m ∧ m < idx + n ∧ UTF8IsContinuationByte (f m) = false ∧
      ∀ j, idx ≤ j → j < m → UTF8IsContinuationByte (f j) = true := by
  intro n
  induction n with
  | zero => intro idx m h; simp [findMismatchAux] at h
  | succ n ih =>
    intro idx m h
    rw [findMismatchAux] at h
    by_cases hc : UTF8IsContinuationByte (f idx) = true
    · rw [if_pos hc] at h
      obtain ⟨h1, h2, h3, h4⟩ := ih (idx + 1) m h
      refine ⟨by omega, by omega, h3, ?_⟩
      intro j hj1 hj2
      rcases Nat.eq_or_lt_of_le hj1 with rfl | hlt
      · exact hc
      · exact h4 j hlt hj2
    · rw [if_neg hc] at h
      obtain rfl : idx = m := by injection h
      refine ⟨Nat.le_refl _, by omega, by simpa using hc, ?_⟩
      intro j hj1 hj2; omega

theorem findMismatchAux_none (f : Nat → Nat) :
    ∀ (n idx : Nat), findMismatchAux f idx n = none →
      ∀ j, idx ≤ j → j < idx + n → UTF8IsContinuationByte (f j) = true := by
  intro n
  induction n with
  | zero => intro idx _ j hj1 hj2; omega
  | succ n ih =>
    intro idx h j hj1 hj2
    rw [findMismatchAux] at h
    by_cases hc : UTF8IsContinuationByte (f idx) = true
    · rw [if_pos hc] at h
      rcases Nat.eq_or_lt_of_le hj1 with rfl | hlt
      · exact hc
      · exact ih (idx + 1) h j hlt (by omega)
    · rw [if_neg hc] at h; exact absurd h (by simp)

theorem findMismatchAux_congr (f g : Nat → Nat) :
    ∀ (n idx : Nat), (∀ j, idx ≤ j → j < idx + n → f j = g j) →
      findMismatchAux f idx n = findMismatchAux g idx n := by
  intro n
  induction n with
  | zero => intro idx _; rfl
  | succ n ih =>
    intro idx hag
    rw [findMismatchAux, findMismatchAux, hag idx (Nat.le_refl _) (by omega)]
    by_cases hc : UTF8IsContinuationByte (g idx) = true
    · rw [if_pos hc, if_pos hc]
      exact ih (idx + 1) fun j h1 h2 => hag j (by omega) (by omega)
    · rw [if_neg hc, if_neg hc]

theorem contBytes_congr (f g : Nat → Nat) (k r : Nat)
    (hag : ∀ j, j < r → f j = g j) :
    UTF8InvalidNrOfContinuationBytes f k r =
      UTF8InvalidNrOfContinuationBytes g k r := by
  rw [UTF8InvalidNrOfContinuationBytes, UTF8InvalidNrOfContinuationBytes]
  have hcongr : findMismatchAux f 1 ((if k + 1 > r then r else k + 1) - 1) =
      findMismatchAux g 1 ((if k + 1 > r then r else k + 1) - 1) := by
    apply findMismatchAux_congr
    intro j hj1 hj2
    apply hag
    by_cases h : k + 1 > r
    · rw [if_pos h] at hj2; omega
    · rw [if_neg h] at hj2; omega
  rw [hcongr]

/-- C4 as stated is false: with required continuation count 3 and remaining
length 2 over the bytes F0 41, the result is truncated but the resume
position is offset 1 (the mismatching byte), not the end of the buffer
(offset 2). -/
theorem c4_counterexample :
    3 + 1 > 2 ∧
    (UTF8InvalidNrOfContinuationBytes (memOf [0xF0, 0x41]) 3 2).truncated = true ∧
    (UTF8InvalidNrOfContinuationBytes (memOf [0xF0, 0x41]) 3 2).resume ≠ some 2 := by
  decide

/-- C4 amended: when k + 1 > r the result is truncated, only offsets below r
are inspected (the result is unchanged under any modification of bytes at
offsets at and beyond r), and the resume offset m is the end of the readable
range r unless a non-continuation byte occurs at some offset in [1, r), in
which case m is the first such offset. -/
theorem c4_amended (f : Nat → Nat) (k r : Nat) (h : k + 1 > r) :
    (UTF8InvalidNrOfContinuationBytes f k r).truncated = true ∧
    (∀ g : Nat → Nat, (∀ j, j < r → f j = g j) →
      UTF8InvalidNrOfContinuationBytes g k r =
        UTF8InvalidNrOfContinuationBytes f k r) ∧
    ∃ m, (UTF8InvalidNrOfContinuationBytes f k r).resume = some m ∧ m ≤ r ∧
      (m = r ∨ (1 ≤ m ∧ UTF8IsContinuationByte (f m) = false)) ∧
      ∀ j, 1 ≤ j → j < m → UTF8IsContinuationByte (f j) = true := by
  refine ⟨?_, ?_, ?_⟩
  · rw [UTF8InvalidNrOfContinuationBytes]
    simp only [if_pos h, gt_iff_lt, decide_eq_true_eq]
    cases hfm : findMismatchAux f 1 (r - 1) <;> simp [h]
  · intro g hag
    exact (contBytes_congr f g k r hag).symm
  · rw [UTF8InvalidNrOfContinuationBytes]
    simp only [if_pos h, gt_iff_lt]
    cases hfm : findMismatchAux f 1 (r - 1) with
    | none =>
      refine ⟨r, rfl, Nat.le_refl _, Or.inl rfl, ?_⟩
      intro j hj1 hj2
      exact findMismatchAux_none f (r - 1) 1 hfm j hj1 (by omega)
    | some i =>
      obtain ⟨h1, h2, h3, h4⟩ := findMismatchAux_some f (r - 1) 1 i hfm
      exact ⟨i, rfl, by omega, Or.inr ⟨h1, h3⟩, fun j hj1 hj2 => h4 j hj1 hj2⟩

/-- C4 witness: a concrete truncated call (lead 0xE2 with no following bytes,
k = 2, r = 1) satisfying the amended statement. -/
theorem c4_witness :
    (UTF8InvalidNrOfContinuationBytes (memOf [0xE2]) 2 1).truncated = true :=
  (c4_amended (memOf [0xE2]) 2 1 (by decide)).1

/-! C6: forward progress of the scan cursor. -/

theorem leadLen_ge_one (b : Nat) : 1 ≤ (UTF8IsValidLeadingByte b).2 := by
  rw [UTF8IsValidLeadingByte]
  split_ifs <;> simp

theorem cont_advance (f : Nat → Nat) (k r : Nat) (hr : 1 ≤ r)
    (h : (UTF8InvalidNrOfContinuationBytes f k r).truncated = true ∨
      (UTF8InvalidNrOfContinuationBytes f k r).mismatch = true) :
    1 ≤ (UTF8InvalidNrOfContinuationBytes f k r).resume.getD 0 := by
  rw [UTF8InvalidNrOfContinuationBytes] at *
  cases hfm : findMismatchAux f 1 ((if k + 1 > r then r else k + 1) - 1) with
  | some i =>
    obtain ⟨h1, _, _, _⟩ :=
      findMismatchAux_some f ((if k + 1 > r then r else k + 1) - 1) 1 i hfm
    simp only [hfm, Option.getD_some]
    exact h1
  | none =>
    simp only [hfm] at h ⊢
    rcases h with h | h
    · simp only [gt_iff_lt, decide_eq_true_eq] at h
      rw [if_pos h]
      simpa using hr
    · simp at h

theorem leadCont_advance (mem : Nat → Nat) (stop p p' : Nat) (d : Diag)
    (hp : p < stop)
    (h : UTF8InvalidLeadingOrContinuation mem stop p = some (p', d)) :
    p < p' := by
  rw [UTF8InvalidLeadingOrContinuation] at h
  by_cases hL : (UTF8IsValidLeadingByte (mem p)).1 = false
  · rw [if_pos hL] at h
    have hlen := leadLen_ge_one (mem p)
    have : p' = p + if stop - p < (UTF8IsValidLeadingByte (mem p)).2
        then stop - p else (UTF8IsValidLeadingByte (mem p)).2 := by
      injection h with h'
      injection h'
      omega
    subst this
    split_ifs <;> omega
  · rw [if_neg hL] at h
    by_cases ht : (UTF8InvalidNrOfContinuationBytes (fun j => mem (p + j))
        ((UTF8IsValidLeadingByte (mem p)).2 - 1) (stop - p)).truncated = true
    · rw [if_pos ht] at h
      have := cont_advance (fun j => mem (p + j))
        ((UTF8IsValidLeadingByte (mem p)).2 - 1) (stop - p) (by omega) (Or.inl ht)
      injection h with h'
      injection h'
      omega
    · rw [if_neg ht] at h
      by_cases hm : (UTF8InvalidNrOfContinuationBytes (fun j => mem (p + j))
          ((UTF8IsValidLeadingByte (mem p)).2 - 1) (stop - p)).mismatch = true
      · rw [if_pos hm] at h
        have := cont_advance (fun j => mem (p + j))
          ((UTF8IsValidLeadingByte (mem p)).2 - 1) (stop - p) (by omega) (Or.inr hm)
        injection h with h'
        injection h'
        omega
      · rw [if_neg hm] at h
        exact absurd h (by simp)

theorem checkErrors_advance (mem : Nat → Nat) (stop p : Nat) (hp : p < stop) :
    p < (UTF8CheckErrors mem stop p).1 := by
  rw [UTF8CheckErrors]
  rw [if_neg (by omega)]
  cases hL : UTF8InvalidLeadingOrContinuation mem stop p with
  | some pd =>
    obtain ⟨p', d⟩ := pd
    exact leadCont_advance mem stop p p' d hp hL
  | none =>
    by_cases h1 : UTF8InvalidControlChar (mem p) = true
    · rw [if_pos h1]; show p < p + 1; omega
    · rw [if_neg h1]
      by_cases h2 : stop < p + 2
      · rw [if_pos h2]; exact hp
      · rw [if_neg h2]
        by_cases h3 : UTF8Invalid2BytesOverlong (mem p) = true
        · rw [if_pos h3]; show p < p + 2; omega
        · rw [if_neg h3]
          by_cases h4 : stop < p + 3
          · rw [if_pos h4]; exact hp
          · rw [if_neg h4]
            by_cases h5 : UTF8Invalid3BytesOverlong (mem p) (mem (p + 1)) = true
            · rw [if_pos h5]; show p < p + 3; omega
            · rw [if_neg h5]
              by_cases h6 : UTF8Invalid3BytesSurrogateHalf (mem p) (mem (p + 1)) = true
              · rw [if_pos h6]; show p < p + 3; omega
              · rw [if_neg h6]
                by_cases h7 : stop < p + 4
                · rw [if_pos h7]; exact hp
                · rw [if_neg h7]
                  by_cases h8 : UTF8Invalid4BytesOverlong (mem p) (mem (p + 1)) = true
                  · rw [if_pos h8]; show p < p + 4; omega
                  · rw [if_neg h8]
                    cases hF : UTF8InvalidCodePoint4BytesF4 (mem p) (mem (p + 1))
                      (mem (p + 2)) (mem (p + 3)) with
                    | some cp => show p < p + 4; omega
                    | none =>
                      by_cases h9 : UTF8InvalidCodePoint4BytesNonF4 (mem p) = true
                      · rw [if_pos h9]; show p < p + 4; omega
                      · rw [if_neg h9]; show p < p + 1; omega

theorem validate_invalid_cursor (bc : Bool) (mem : Nat → Nat) (stop p : Nat)
    (h : (UTF8CharValidate bc mem stop p).thisValid = false) :
    (UTF8CharValidate bc mem stop p).cursor = p := by
  rw [UTF8CharValidate] at h ⊢
  split_ifs at h ⊢ <;> simp_all

theorem validate_valid_advance (bc : Bool) (mem : Nat → Nat) (stop p : Nat)
    (hp : p < stop)
    (h : (UTF8CharValidate bc mem stop p).thisValid = true) :
    p < (UTF8CharValidate bc mem stop p).cursor := by
  rw [UTF8CharValidate] at h ⊢
  split_ifs at h ⊢ <;> simp_all
  all_goals omega

theorem validate_ascii_imp_valid (bc : Bool) (mem : Nat → Nat) (stop p : Nat)
    (h : (UTF8CharValidate bc mem stop p).thisAscii = true) :
    (UTF8CharValidate bc mem stop p).thisValid = true := by
  rw [UTF8CharValidate] at h ⊢
  split_ifs at h ⊢ <;> simp_all

theorem scanStep_advance (bc : Bool) (mem : Nat → Nat) (stop : Nat)
    (st : ScanState) (hp : st.cursor < stop) :
    st.cursor < (scanStep bc mem stop st).cursor := by
  rw [scanStep]
  by_cases hv : (UTF8CharValidate bc mem stop st.cursor).thisValid = true
  · simp only [hv, if_true]
    exact validate_valid_advance bc mem stop st.cursor hp hv
  · rw [Bool.not_eq_true] at hv
    simp only [hv, Bool.false_eq_true, if_false]
    have hc := validate_invalid_cursor bc mem stop st.cursor hv
    rw [hc]
    exact checkErrors_advance mem stop st.cursor hp

/-- C6: the scan cursor strictly increases on every iteration of the scan
loop (one scanStep, i.e. one validation together with any
error-classification it triggers, advances the cursor by at least 1), and
consequently the loop started at cursor c with fuel at least stop - c ends
with the cursor at or beyond stop: the scan over a buffer of length L
terminates within L steps. -/
theorem c6_forward_progress (bc : Bool) (mem : Nat → Nat) (stop : Nat) :
    (∀ st : ScanState, st.cursor < stop →
      st.cursor < (scanStep bc mem stop st).cursor) ∧
    (∀ fuel (st : ScanState), stop ≤ st.cursor + fuel →
      stop ≤ (scanLoop bc mem stop fuel st).cursor) := by
  refine ⟨fun st => scanStep_advance bc mem stop st, ?_⟩
  intro fuel
  induction fuel with
  | zero => intro st h; simpa [scanLoop] using h
  | succ n ih =>
    intro st h
    rw [scanLoop]
    by_cases hp : st.cursor < stop
    · rw [if_pos hp]
      have hadv := scanStep_advance bc mem stop st hp
      simp only [UTF8_DETAILED_ERROR_LIST, Bool.not_true, Bool.and_false,
        Bool.false_eq_true, if_false]
      exact ih (scanStep bc mem stop st) (by omega)
    · rw [if_neg hp]
      omega

/-- C6 witness: a concrete scan (one invalid byte, bounds-checked mode)
completing within the fuel bound. -/
theorem c6_witness :
    1 ≤ (scanLoop true (memOf [0xC8]) 1 1 ⟨0, true, true, []⟩).cursor :=
  (c6_forward_progress true (memOf [0xC8]) 1).2 1 ⟨0, true, true, []⟩ (by decide)

/-! C10: the running verdict invariant asciiOnly implies validUTF8. -/

/-- C10: at every point of the scan, if the all-ASCII flag is still true then
the valid-UTF-8 flag is still true: the implication is preserved by every
single iteration (scanStep) and by the whole loop from any state satisfying
it; in particular a scan that ends reporting pure 7-bit ASCII also ends
reporting valid UTF-8. -/
theorem c10_ascii_imp_valid (bc : Bool) (mem : Nat → Nat) (stop : Nat) :
    (∀ st : ScanState, (st.asciiOnly = true → st.validUTF8 = true) →
      ((scanStep bc mem stop st).asciiOnly = true →
        (scanStep bc mem stop st).validUTF8 = true)) ∧
    (∀ fuel (st : ScanState), (st.asciiOnly = true → st.validUTF8 = true) →
      ((scanLoop bc mem stop fuel st).asciiOnly = true →
        (scanLoop bc mem stop fuel st).validUTF8 = true)) := by
  have hstep : ∀ st : ScanState, (st.asciiOnly = true → st.validUTF8 = true) →
      ((scanStep bc mem stop st).asciiOnly = true →
        (scanStep bc mem stop st).validUTF8 = true) := by
    intro st hinv
    rw [scanStep]
    by_cases hv : (UTF8CharValidate bc mem stop st.cursor).thisValid = true
    · simp only [hv, if_true, Bool.and_eq_true, and_true]
      intro ha
      exact hinv ha.1
    · rw [Bool.not_eq_true] at hv
      simp only [hv, Bool.false_eq_true, if_false, Bool.and_eq_true]
      intro ⟨ha1, ha2⟩
      exact absurd (validate_ascii_imp_valid bc mem stop st.cursor ha2) (by simp [hv])
  refine ⟨hstep, ?_⟩
  intro fuel
  induction fuel with
  | zero => intro st hinv; simpa [scanLoop] using hinv
  | succ n ih =>
    intro st hinv
    rw [scanLoop]
    by_cases hp : st.cursor < stop
    · rw [if_pos hp]
      simp only [UTF8_DETAILED_ERROR_LIST, Bool.not_true, Bool.and_false,
        Bool.false_eq_true, if_false]
      exact ih (scanStep bc mem stop st) (hstep st hinv)
    · rw [if_neg hp]
      exact hinv

/-- C10 witness: the invariant instantiated on a concrete all-ASCII scan. -/
theorem c10_witness :
    (scanLoop true (memOf [0x41]) 1 1 ⟨0, true, true, []⟩).validUTF8 = true :=
  (c10_ascii_imp_valid true (memOf [0x41]) 1).2 1 ⟨0, true, true, []⟩
    (by decide) (by decide)

/-! Scanning a buffer that decomposes into valid chunks. -/

theorem memOf_eq_of_drop (buf : List Nat) (p b : Nat) (tail : List Nat)
    (h : buf.drop p = b :: tail) :
    memOf buf p = b ∧ buf.drop (p + 1) = tail := by
  constructor
  · have h0 := List.getElem?_drop buf p 0
    rw [Nat.add_zero, h] at h0
    simp only [List.getElem?_cons_zero] at h0
    rw [memOf]
    rw [List.getD_eq_getElem?_getD, ← h0]
    rfl
  · have ht := List.tail_drop buf p
    rw [h] at ht
    exact ht.symm

theorem guardFalse (bc : Bool) (stop p k : Nat) (h : bc = true → p + k ≤ stop) :
    (bc && decide (stop < p + k)) = false := by
  cases bc
  · rfl
  · have := h rfl
    simp only [Bool.true_and, decide_eq_false_iff_not, not_lt]
    omega

theorem validate_at_ascii (bc : Bool) (mem : Nat → Nat) (stop p : Nat)
    (hp : p < stop) (h : UTF8CharASCII7 (mem p) = true) :
    UTF8CharValidate bc mem stop p = ⟨p + 1, true, true, []⟩ := by
  rw [UTF8CharValidate]
  simp only [guardFalse bc stop p 1 (fun _ => by omega), Bool.false_eq_true,
    if_false, h, if_true]

theorem validate_at_two (bc : Bool) (mem : Nat → Nat) (stop p : Nat)
    (hp : p < stop) (hbc : bc = true → p + 2 ≤ stop)
    (h2 : UTF8CharValid2Bytes (mem p) (mem (p + 1)) = true) :
    UTF8CharValidate bc mem stop p = ⟨p + 2, true, false, []⟩ := by
  have ha : UTF8CharASCII7 (mem p) = false := by
    have := valid2_lead _ _ h2
    exact ascii7_false_of_ge _ (by omega)
  rw [UTF8CharValidate]
  simp only [guardFalse bc stop p 1 (fun _ => by omega), guardFalse bc stop p 2 hbc,
    Bool.false_eq_true, if_false, ha, h2, if_true]

theorem validate_at_three (bc : Bool) (mem : Nat → Nat) (stop p : Nat)
    (hp : p < stop) (hbc : bc = true → p + 3 ≤ stop)
    (h3 : UTF8CharValid3Bytes (mem p) (mem (p + 1)) (mem (p + 2)) = true) :
    UTF8CharValidate bc mem stop p = ⟨p + 3, true, false, []⟩ := by
  have hlead := valid3_lead _ _ _ h3
  have ha : UTF8CharASCII7 (mem p) = false := ascii7_false_of_ge _ (by omega)
  have h2 : UTF8CharValid2Bytes (mem p) (mem (p + 1)) = false :=
    valid2_false_of_lead_ge _ _ (by omega)
  rw [UTF8CharValidate]
  simp only [guardFalse bc stop p 1 (fun _ => by omega),
    guardFalse bc stop p 2 (fun hb => by have := hbc hb; omega),
    guardFalse bc stop p 3 hbc,
    Bool.false_eq_true, if_false, ha, h2, h3, if_true]

theorem validate_at_four (bc : Bool) (mem : Nat → Nat) (stop p : Nat)
    (hp : p < stop) (hbc : bc = true → p + 4 ≤ stop)
    (h4 : UTF8CharValid4Bytes (mem p) (mem (p + 1)) (mem (p + 2)) (mem (p + 3)) = true) :
    UTF8CharValidate bc mem stop p = ⟨p + 4, true, false, []⟩ := by
  have hlead := valid4_lead _ _ _ _ h4
  have ha : UTF8CharASCII7 (mem p) = false := ascii7_false_of_ge _ (by omega)
  have h2 : UTF8CharValid2Bytes (mem p) (mem (p + 1)) = false :=
    valid2_false_of_lead_ge _ _ (by omega)
  have h3 : UTF8CharValid3Bytes (mem p) (mem (p + 1)) (mem (p + 2)) = false :=
    valid3_false_of_lead_ge _ _ _ (by omega)
  rw [UTF8CharValidate]
  simp only [guardFalse bc stop p 1 (fun _ => by omega),
    guardFalse bc stop p 2 (fun hb => by have := hbc hb; omega),
    guardFalse bc stop p 3 (fun hb => by have := hbc hb; omega),
    guardFalse bc stop p 4 hbc,
    Bool.false_eq_true, if_false, ha, h2, h3, h4, if_true]

theorem scanStep_of_validate (bc : Bool) (mem : Nat → Nat) (stop p c : Nat)
    (ta : Bool) (v a : Bool) (d : List Diag)
    (h : UTF8CharValidate bc mem stop p = ⟨p + c, true, ta, []⟩) :
    scanStep bc mem stop ⟨p, v, a, d⟩ = ⟨p + c, v, a && ta, d⟩ := by
  rw [scanStep]
  simp only [h, Bool.and_true, List.append_nil, if_true]

theorem scanLoop_succ_of_lt (bc : Bool) (mem : Nat → Nat) (stop n : Nat)
    (st : ScanState) (hp : st.cursor < stop) :
    scanLoop bc mem stop (n + 1) st =
      scanLoop bc mem stop n (scanStep bc mem stop st) := by
  rw [scanLoop, if_pos hp]
  simp only [UTF8_DETAILED_ERROR_LIST, Bool.not_true, Bool.and_false,
    Bool.false_eq_true, if_false]

theorem take_all_cons_true (b : Nat) (t : List Nat) (n : Nat) (hn : 1 ≤ n)
    (hb : UTF8CharASCII7 b = true) :
    ((b :: t).take n).all UTF8CharASCII7 = (t.take (n - 1)).all UTF8CharASCII7 := by
  obtain ⟨m, rfl⟩ : ∃ m, n = m + 1 := ⟨n - 1, by omega⟩
  rw [List.take_succ_cons, List.all_cons, hb, Bool.true_and]
  simp

theorem take_all_cons_false (b : Nat) (t : List Nat) (n : Nat) (hn : 1 ≤ n)
    (hb : UTF8CharASCII7 b = false) :
    ((b :: t).take n).all UTF8CharASCII7 = false := by
  obtain ⟨m, rfl⟩ : ∃ m, n = m + 1 := ⟨n - 1, by omega⟩
  rw [List.take_succ_cons, List.all_cons, hb, Bool.false_and]

/-- Scanning any buffer that decomposes into valid chunks: the validity flag
is left unchanged, the diagnostic log is unchanged, and the ASCII flag
records whether the scanned region consists of ASCII bytes only.
bc = true is used with stop = length (the bounds-checked full scan);
bc = false admits any stop at most the length. -/
theorem scanLoop_valid (bc : Bool) (buf : List Nat) (stop : Nat)
    (hstop : stop ≤ buf.length) (hbc : bc = true → stop = buf.length) :
    ∀ fuel p v a d, validUtf8Chunks (buf.drop p) = true → stop ≤ p + fuel →
    (scanLoop bc (memOf buf) stop fuel ⟨p, v, a, d⟩).validUTF8 = v ∧
    (scanLoop bc (memOf buf) stop fuel ⟨p, v, a, d⟩).asciiOnly =
      (a && ((buf.drop p).take (stop - p)).all UTF8CharASCII7) ∧
    (scanLoop bc (memOf buf) stop fuel ⟨p, v, a, d⟩).diags = d := by
  intro fuel
  induction fuel with
  | zero =>
    intro p v a d hv hf
    have h0 : stop - p = 0 := by omega
    rw [scanLoop]
    simp [h0]
  | succ n ih =>
    intro p v a d hv hf
    by_cases hp : p < stop
    case neg =>
      rw [scanLoop]
      rw [if_neg hp]
      have h0 : stop - p = 0 := by omega
      simp [h0]
    case pos =>
      rw [scanLoop_succ_of_lt bc (memOf buf) stop n ⟨p, v, a, d⟩ hp]
      have hdlen : (buf.drop p).length = buf.length - p := List.length_drop p buf
      have hne : buf.drop p ≠ [] := by
        intro hnil
        rw [hnil] at hdlen
        simp at hdlen
        omega
      obtain ⟨b0, t0, hd0⟩ := List.exists_cons_of_ne_nil hne
      obtain ⟨hm0, hd1⟩ := memOf_eq_of_drop buf p b0 t0 hd0
      rw [hd0, validUtf8Chunks.eq_def] at hv
      by_cases hA : UTF8CharASCII7 b0 = true
      · -- 1-byte ASCII chunk
        simp only [hA, if_true] at hv
        rw [scanStep_of_validate bc (memOf buf) stop p 1 true v a d
          (validate_at_ascii bc (memOf buf) stop p hp (by rw [hm0]; exact hA))]
        rw [Bool.and_true]
        obtain ⟨ih1, ih2, ih3⟩ := ih (p + 1) v a d (by rw [hd1]; exact hv) (by omega)
        refine ⟨ih1, ?_, ih3⟩
        rw [ih2, hd0, hd1, take_all_cons_true b0 t0 (stop - p) (by omega) hA]
        have he : stop - (p + 1) = stop - p - 1 := by omega
        rw [he]
      · rw [Bool.not_eq_true] at hA
        simp only [hA, Bool.false_eq_true, if_false] at hv
        cases t0 with
        | nil => simp at hv
        | cons b1 t1 =>
          obtain ⟨hm1, hd2⟩ := memOf_eq_of_drop buf (p + 1) b1 t1 hd1
          have hlen2 : p + 2 ≤ buf.length := by
            have := congrArg List.length hd0
            rw [hdlen] at this
            simp at this
            omega
          by_cases h2 : UTF8CharValid2Bytes b0 b1 = true
          · -- 2-byte chunk
            simp only [h2, if_true] at hv
            rw [scanStep_of_validate bc (memOf buf) stop p 2 false v a d
              (validate_at_two bc (memOf buf) stop p hp
                (fun hb => by rw [hbc hb]; omega)
                (by rw [hm0, hm1]; exact h2))]
            rw [Bool.and_false]
            obtain ⟨ih1, ih2, ih3⟩ := ih (p + 2) v false d
              (by rw [show p + 1 + 1 = p + 2 by omega] at hd2; rw [hd2]; exact hv) (by omega)
            refine ⟨ih1, ?_, ih3⟩
            rw [ih2, Bool.false_and, hd0,
              take_all_cons_false b0 (b1 :: t1) (stop - p) (by omega) hA,
              Bool.and_false]
          · rw [Bool.not_eq_true] at h2
            simp only [h2, Bool.false_eq_true, if_false] at hv
            cases t1 with
            | nil => simp at hv
            | cons b2 t2 =>
              obtain ⟨hm2, hd3⟩ := memOf_eq_of_drop buf (p + 2) b2 t2
                (by rw [show p + 1 + 1 = p + 2 by omega] at hd2; exact hd2)
              have hlen3 : p + 3 ≤ buf.length := by
                have := congrArg List.length hd0
                rw [hdlen] at this
                simp at this
                omega
              by_cases h3 : UTF8CharValid3Bytes b0 b1 b2 = true
              · -- 3-byte chunk
                simp only [h3, if_true] at hv
                rw [scanStep_of_validate bc (memOf buf) stop p 3 false v a d
                  (validate_at_three bc (memOf buf) stop p hp
                    (fun hb => by rw [hbc hb]; omega)
                    (by rw [hm0, hm1, hm2]; exact h3))]
                rw [Bool.and_false]
                obtain ⟨ih1, ih2, ih3⟩ := ih (p + 3) v false d
                  (by rw [show p + 3 = p + 2 + 1 by omega, hd3]; exact hv) (by omega)
                refine ⟨ih1, ?_, ih3⟩
                rw [ih2, Bool.false_and, hd0,
                  take_all_cons_false b0 (b1 :: b2 :: t2) (stop - p) (by omega) hA,
                  Bool.and_false]
              · rw [Bool.not_eq_true] at h3
                simp only [h3, Bool.false_eq_true, if_false] at hv
                cases t2 with
                | nil => simp at hv
                | cons b3 t3 =>
                  obtain ⟨hm3, hd4⟩ := memOf_eq_of_drop buf (p + 3) b3 t3
                    (by rw [show p + 3 = p + 2 + 1 by omega]; exact hd3)
                  have hlen4 : p + 4 ≤ buf.length := by
                    have := congrArg List.length hd0
                    rw [hdlen] at this
                    simp at this
                    omega
                  by_cases h4 : UTF8CharValid4Bytes b0 b1 b2 b3 = true
                  · -- 4-byte chunk
                    simp only [h4, if_true] at hv
                    rw [scanStep_of_validate bc (memOf buf) stop p 4 false v a d
                      (validate_at_four bc (memOf buf) stop p hp
                        (fun hb => by rw [hbc hb]; omega)
                        (by rw [hm0, hm1, hm2, hm3]; exact h4))]
                    rw [Bool.and_false]
                    obtain ⟨ih1, ih2, ih3⟩ := ih (p + 4) v false d
                      (by rw [show p + 4 = p + 3 + 1 by omega, hd4]; exact hv) (by omega)
                    refine ⟨ih1, ?_, ih3⟩
                    rw [ih2, Bool.false_and, hd0,
                      take_all_cons_false b0 (b1 :: b2 :: b3 :: t3) (stop - p) (by omega) hA,
                      Bool.and_false]
                  · rw [Bool.not_eq_true] at h4
                    simp only [h4, Bool.false_eq_true, if_false] at hv

/-! C1 and C2: verdicts on valid and on pure-ASCII buffers. -/

theorem ascii7_true_of_set (b : Nat)
    (h : b = 0x09 ∨ b = 0x0A ∨ b = 0x0D ∨ (0x20 ≤ b ∧ b ≤ 0x7E)) :
    UTF8CharASCII7 b = true := by
  simp only [UTF8CharASCII7, Bool.or_eq_true, beq_iff_eq, Bool.and_eq_true,
    decide_eq_true_eq]
  omega

theorem chunks_of_all_ascii (buf : List Nat)
    (h : buf.all UTF8CharASCII7 = true) : validUtf8Chunks buf = true := by
  induction buf with
  | nil => rfl
  | cons b t ih =>
    rw [List.all_cons, Bool.and_eq_true] at h
    rw [validUtf8Chunks.eq_def]
    simp only [h.1, if_true]
    exact ih h.2

theorem verdict_of_ascii (st : ScanState) (h : st.asciiOnly = true) :
    utf8NoBOMVerdict st = false := by
  rw [utf8NoBOMVerdict, if_pos h]

theorem verdict_of_not_ascii (st : ScanState) (h : st.asciiOnly = false) :
    utf8NoBOMVerdict st = st.validUTF8 := by
  rw [utf8NoBOMVerdict, h]
  simp

/-- C2: a buffer consisting solely of bytes in the set containing 0x09, 0x0A,
0x0D and the range [0x20, 0x7E] scans with all_ascii_only = true and
all_valid_utf8 = true in both the bounds-checked and the unchecked mode, and
CheckStreamForUTF8NoBOM returns false (pure ASCII yields false even though it
is valid UTF-8). -/
theorem c2_pure_ascii (buf : List Nat)
    (h : ∀ b ∈ buf, b = 0x09 ∨ b = 0x0A ∨ b = 0x0D ∨ (0x20 ≤ b ∧ b ≤ 0x7E)) :
    (CheckStreamForUTF8NoBOMInternal true (memOf buf) buf.length).asciiOnly = true ∧
    (CheckStreamForUTF8NoBOMInternal true (memOf buf) buf.length).validUTF8 = true ∧
    (CheckStreamForUTF8NoBOMInternal false (memOf buf)
      (buf.length - UTF8_MAX_CHAR_SIZE)).asciiOnly = true ∧
    (CheckStreamForUTF8NoBOMInternal false (memOf buf)
      (buf.length - UTF8_MAX_CHAR_SIZE)).validUTF8 = true ∧
    CheckStreamForUTF8NoBOM buf = false := by
  have hall : buf.all UTF8CharASCII7 = true :=
    List.all_eq_true.mpr fun x hx => ascii7_true_of_set x (h x hx)
  have hchunks : validUtf8Chunks buf = true := chunks_of_all_ascii buf hall
  have htake : ∀ n, (buf.take n).all UTF8CharASCII7 = true := fun n =>
    List.all_eq_true.mpr fun x hx =>
      List.all_eq_true.mp hall x (List.mem_of_mem_take hx)
  have hc := scanLoop_valid true buf buf.length (Nat.le_refl _) (fun _ => rfl)
    buf.length 0 true true [] (by rw [List.drop_zero]; exact hchunks) (by omega)
  have hu := scanLoop_valid false buf (buf.length - UTF8_MAX_CHAR_SIZE)
    (Nat.sub_le _ _) (fun hb => absurd hb Bool.false_ne_true)
    (buf.length - UTF8_MAX_CHAR_SIZE) 0 true true []
    (by rw [List.drop_zero]; exact hchunks) (by omega)
  have hac : (CheckStreamForUTF8NoBOMInternal true (memOf buf) buf.length).asciiOnly
      = true := by
    rw [CheckStreamForUTF8NoBOMInternal, hc.2.1]
    simp only [List.drop_zero, Nat.sub_zero, Bool.true_and, List.take_length]
    exact hall
  have hau : (CheckStreamForUTF8NoBOMInternal false (memOf buf)
      (buf.length - UTF8_MAX_CHAR_SIZE)).asciiOnly = true := by
    rw [CheckStreamForUTF8NoBOMInternal, hu.2.1]
    simp only [List.drop_zero, Nat.sub_zero, Bool.true_and]
    exact htake _
  refine ⟨hac, ?_, hau, ?_, ?_⟩
  · rw [CheckStreamForUTF8NoBOMInternal, hc.1]
  · rw [CheckStreamForUTF8NoBOMInternal, hu.1]
  · rw [CheckStreamForUTF8NoBOM, utf8NoBOMDecisionMode]
    by_cases hsz : buf.length < UTF8_TINY_MODE_SIZE_LIMIT
    · rw [decide_eq_true hsz]
      simp only [if_true]
      exact verdict_of_ascii _ hac
    · rw [decide_eq_false hsz]
      simp only [Bool.false_eq_true, if_false]
      exact verdict_of_ascii _ hau

/-- C2 witness: a concrete pure-ASCII buffer. -/
theorem c2_witness :
    CheckStreamForUTF8NoBOM [72, 105, 9, 10, 13, 32, 126] = false :=
  (c2_pure_ascii [72, 105, 9, 10, 13, 32, 126] (by decide)).2.2.2.2

/-- C1 as stated is false for the unchecked mode: the buffer
61 61 61 61 C2 80 is valid UTF-8 (by the engine's own chunk decomposition)
and contains a byte at or above 0x80, yet the unchecked mode, which stops 4
bytes before the end, never sees the two-byte character and returns false. -/
theorem c1_counterexample :
    validUtf8Chunks [97, 97, 97, 97, 194, 128] = true ∧
    (∃ b ∈ [97, 97, 97, 97, 194, 128], 0x80 ≤ b) ∧
    utf8NoBOMDecisionMode false [97, 97, 97, 97, 194, 128] = false := by
  refine ⟨by decide, ⟨194, by decide, by decide⟩, by decide⟩

/-- C1 amended: over a buffer decomposing into valid chunks, the
bounds-checked mode reports valid UTF-8, reports not-pure-ASCII and decides
true whenever some byte is at or above 0x80; the unchecked mode (stopping
UTF8_MAX_CHAR_SIZE bytes before the end) does the same provided some byte at
an index below length - UTF8_MAX_CHAR_SIZE is at or above 0x80. -/
theorem c1_amended (buf : List Nat) (hv : validUtf8Chunks buf = true) :
    ((∃ b ∈ buf, 0x80 ≤ b) →
      (CheckStreamForUTF8NoBOMInternal true (memOf buf) buf.length).validUTF8 = true ∧
      (CheckStreamForUTF8NoBOMInternal true (memOf buf) buf.length).asciiOnly = false ∧
      utf8NoBOMDecisionMode true buf = true) ∧
    ((∃ i, i < buf.length - UTF8_MAX_CHAR_SIZE ∧ 0x80 ≤ memOf buf i) →
      (CheckStreamForUTF8NoBOMInternal false (memOf buf)
        (buf.length - UTF8_MAX_CHAR_SIZE)).validUTF8 = true ∧
      (CheckStreamForUTF8NoBOMInternal false (memOf buf)
        (buf.length - UTF8_MAX_CHAR_SIZE)).asciiOnly = false ∧
      utf8NoBOMDecisionMode false buf = true) := by
  have hc := scanLoop_valid true buf buf.length (Nat.le_refl _) (fun _ => rfl)
    buf.length 0 true true [] (by rw [List.drop_zero]; exact hv) (by omega)
  have hu := scanLoop_valid false buf (buf.length - UTF8_MAX_CHAR_SIZE)
    (Nat.sub_le _ _) (fun hb => absurd hb Bool.false_ne_true)
    (buf.length - UTF8_MAX_CHAR_SIZE) 0 true true []
    (by rw [List.drop_zero]; exact hv) (by omega)
  constructor
  · intro hex
    have hallf : buf.all UTF8CharASCII7 = false := by
      obtain ⟨b, hb, hge⟩ := hex
      by_contra hne
      rw [Bool.not_eq_false] at hne
      have := List.all_eq_true.mp hne b hb
      rw [ascii7_false_of_ge b hge] at this
      exact absurd this Bool.false_ne_true
    have hac : (CheckStreamForUTF8NoBOMInternal true (memOf buf)
        buf.length).asciiOnly = false := by
      rw [CheckStreamForUTF8NoBOMInternal, hc.2.1]
      simp only [List.drop_zero, Nat.sub_zero, Bool.true_and, List.take_length]
      exact hallf
    have hvc : (CheckStreamForUTF8NoBOMInternal true (memOf buf)
        buf.length).validUTF8 = true := by
      rw [CheckStreamForUTF8NoBOMInternal, hc.1]
    refine ⟨hvc, hac, ?_⟩
    rw [utf8NoBOMDecisionMode]
    simp only [if_true]
    rw [verdict_of_not_ascii _ hac]
    exact hvc
  · intro hex
    obtain ⟨i, hi, hge⟩ := hex
    have hilen : i < buf.length := by
      by_contra hnl
      rw [not_lt] at hnl
      rw [memOf, List.getD_eq_default _ _ hnl] at hge
      omega
    have hmem : buf[i] ∈ buf.take (buf.length - UTF8_MAX_CHAR_SIZE) := by
      have hlt : i < (buf.take (buf.length - UTF8_MAX_CHAR_SIZE)).length := by
        rw [List.length_take]
        omega
      have hgt : (buf.take (buf.length - UTF8_MAX_CHAR_SIZE))[i] = buf[i] :=
        List.getElem_take ..
      have hm := List.getElem_mem hlt
      rw [hgt] at hm
      exact hm
    have hgeb : 0x80 ≤ buf[i] := by
      rw [memOf, List.getD_eq_getElem buf 0 hilen] at hge
      exact hge
    have hallf : (buf.take (buf.length - UTF8_MAX_CHAR_SIZE)).all UTF8CharASCII7
        = false := by
      by_contra hne
      rw [Bool.not_eq_false] at hne
      have := List.all_eq_true.mp hne _ hmem
      rw [ascii7_false_of_ge _ hgeb] at this
      exact absurd this Bool.false_ne_true
    have hau : (CheckStreamForUTF8NoBOMInternal false (memOf buf)
        (buf.length - UTF8_MAX_CHAR_SIZE)).asciiOnly = false := by
      rw [CheckStreamForUTF8NoBOMInternal, hu.2.1]
      simp only [List.drop_zero, Nat.sub_zero, Bool.true_and]
      exact hallf
    have hvu : (CheckStreamForUTF8NoBOMInternal false (memOf buf)
        (buf.length - UTF8_MAX_CHAR_SIZE)).validUTF8 = true := by
      rw [CheckStreamForUTF8NoBOMInternal, hu.1]
    refine ⟨hvu, hau, ?_⟩
    rw [utf8NoBOMDecisionMode]
    simp only [Bool.false_eq_true, if_false]
    rw [verdict_of_not_ascii _ hau]
    exact hvu

/-- C1 witness: the buffer C3 A9 61 61 61 61 decides true in both modes. -/
theorem c1_witness :
    utf8NoBOMDecisionMode true [195, 169, 97, 97, 97, 97] = true ∧
    utf8NoBOMDecisionMode false [195, 169, 97, 97, 97, 97] = true :=
  ⟨((c1_amended [195, 169, 97, 97, 97, 97] (by decide)).1
      ⟨195, by decide, by decide⟩).2.2,
   ((c1_amended [195, 169, 97, 97, 97, 97] (by decide)).2
      ⟨0, by decide, by decide⟩).2.2⟩

/-! C7 and C8: signature (BOM) matching on streams. -/

theorem read_at_zero_long (data : List Nat) (n : Nat) (h : n ≤ data.length) :
    ByteStream.read ⟨data, 0, false, false⟩ n =
      (data.take n, n, ⟨data, n, false, false⟩) := by
  rw [ByteStream.read]
  simp only [Bool.or_self, Bool.false_eq_true, if_false, Nat.sub_zero,
    List.drop_zero, Nat.zero_add]
  rw [if_pos h]

theorem read_at_zero_short (data : List Nat) (n : Nat) (h : data.length < n) :
    ByteStream.read ⟨data, 0, false, false⟩ n =
      (data, data.length, ⟨data, data.length, true, true⟩) := by
  rw [ByteStream.read]
  simp only [Bool.or_self, Bool.false_eq_true, if_false, Nat.sub_zero,
    List.drop_zero]
  rw [if_neg (by omega)]

/-- CheckStreamForSignature on a good stream at position 0: found with the
position moved past the signature when the signature is the prefix of the
data, not-found with the stream fully restored otherwise. -/
theorem sigCheck_at_zero (data sig : List Nat) :
    CheckStreamForSignature ⟨data, 0, false, false⟩ sig =
      (if data.take sig.length = sig
       then (SigResult.found, ⟨data, sig.length, false, false⟩)
       else (SigResult.notFound, ⟨data, 0, false, false⟩)) := by
  rw [CheckStreamForSignature]
  simp only [Bool.false_eq_true, if_false]
  by_cases hn : sig.length ≤ data.length
  · rw [read_at_zero_long data sig.length hn]
    simp only []
    rw [if_neg (by omega)]
    by_cases heq : data.take sig.length = sig
    · rw [if_neg (by simpa using heq), if_pos heq]
    · rw [if_pos (by simpa using heq), if_neg heq]
      rfl
  · rw [read_at_zero_short data sig.length (by omega)]
    simp only []
    rw [if_pos (by omega)]
    have hne : data.take sig.length ≠ sig := by
      intro heq
      have := congrArg List.length heq
      rw [List.length_take] at this
      omega
    rw [if_neg hne]
    rfl

/-- C8: on a good stream at offset 0, CheckStreamForUTF8BOM returns true and
leaves the stream positioned immediately after the 3 signature bytes when
the data starts EF BB BF; on any non-matching prefix (including short
streams) it returns false and leaves the stream back at offset 0. -/
theorem c8_utf8bom (s : ByteStream) (hpos : s.pos = 0) (hf : s.failbit = false)
    (he : s.eofbit = false) :
    (s.data.take 3 = [0xEF, 0xBB, 0xBF] →
      CheckStreamForUTF8BOM s = (true, { s with pos := 3 })) ∧
    (s.data.take 3 ≠ [0xEF, 0xBB, 0xBF] →
      (CheckStreamForUTF8BOM s).1 = false ∧ (CheckStreamForUTF8BOM s).2.pos = 0) := by
  obtain ⟨data, pos, fb, eb⟩ := s
  obtain rfl : pos = 0 := hpos
  obtain rfl : fb = false := hf
  obtain rfl : eb = false := he
  have hlen : ([0xEF, 0xBB, 0xBF] : List Nat).length = 3 := rfl
  constructor
  · intro h3
    rw [CheckStreamForUTF8BOM, sigCheck_at_zero, hlen, if_pos h3]
  · intro h3
    rw [CheckStreamForUTF8BOM, sigCheck_at_zero, hlen, if_neg h3]
    exact ⟨rfl, rfl⟩

/-- C8 witness: concrete streams for the matching and the non-matching case. -/
theorem c8_witness :
    CheckStreamForUTF8BOM ⟨[0xEF, 0xBB, 0xBF, 0x41], 0, false, false⟩ =
      (true, ⟨[0xEF, 0xBB, 0xBF, 0x41], 3, false, false⟩) ∧
    (CheckStreamForUTF8BOM ⟨[0xEF, 0xBB, 0x00], 0, false, false⟩).1 = false ∧
    (CheckStreamForUTF8BOM ⟨[0xEF, 0xBB, 0x00], 0, false, false⟩).2.pos = 0 :=
  ⟨(c8_utf8bom ⟨[0xEF, 0xBB, 0xBF, 0x41], 0, false, false⟩ rfl rfl rfl).1 (by decide),
   ((c8_utf8bom ⟨[0xEF, 0xBB, 0x00], 0, false, false⟩ rfl rfl rfl).2 (by decide)).1,
   ((c8_utf8bom ⟨[0xEF, 0xBB, 0x00], 0, false, false⟩ rfl rfl rfl).2 (by decide)).2⟩

/-- C7 as stated is false in its defaulting part: on a stream starting with
neither BOM, the function does not set bLittleEndian to any defined default;
the returned flag simply equals the caller's incoming value (true stays
true, false stays false), so no function-defined default exists. -/
theorem c7_counterexample :
    (CheckStreamForUTF16BOM ⟨[0, 0], 0, false, false⟩ true).1 = false ∧
    (CheckStreamForUTF16BOM ⟨[0, 0], 0, false, false⟩ true).2.1 = true ∧
    (CheckStreamForUTF16BOM ⟨[0, 0], 0, false, false⟩ false).2.1 = false := by
  decide

/-- C7 amended: on a good stream at offset 0, FF FE yields (true, little
endian) with the BOM consumed; FE FF yields (true, big endian) with the BOM
consumed (the little-endian signature is tried first and restores the
position before the big-endian attempt); any other prefix yields false with
the stream fully restored and bLittleEndian left unchanged at the caller's
incoming value. -/
theorem c7_amended (s : ByteStream) (init : Bool) (hpos : s.pos = 0)
    (hf : s.failbit = false) (he : s.eofbit = false) :
    (s.data.take 2 = [0xFF, 0xFE] →
      CheckStreamForUTF16BOM s init = (true, true, { s with pos := 2 })) ∧
    (s.data.take 2 = [0xFE, 0xFF] →
      CheckStreamForUTF16BOM s init = (true, false, { s with pos := 2 })) ∧
    (s.data.take 2 ≠ [0xFF, 0xFE] → s.data.take 2 ≠ [0xFE, 0xFF] →
      CheckStreamForUTF16BOM s init = (false, init, s)) := by
  obtain ⟨data, pos, fb, eb⟩ := s
  obtain rfl : pos = 0 := hpos
  obtain rfl : fb = false := hf
  obtain rfl : eb = false := he
  have hlenLE : ([0xFF, 0xFE] : List Nat).length = 2 := rfl
  have hlenBE : ([0xFE, 0xFF] : List Nat).length = 2 := rfl
  by_cases hLE : data.take 2 = [0xFF, 0xFE]
  · refine ⟨fun _ => ?_, fun hBE => ?_, fun hn _ => absurd hLE hn⟩
    · rw [CheckStreamForUTF16BOM, sigCheck_at_zero, hlenLE, if_pos hLE]
    · rw [hLE] at hBE
      exact absurd hBE (by decide)
  · by_cases hBE : data.take 2 = [0xFE, 0xFF]
    · refine ⟨fun hLE' => absurd hLE' hLE, fun _ => ?_, fun _ hn => absurd hBE hn⟩
      rw [CheckStreamForUTF16BOM, sigCheck_at_zero, hlenLE, if_neg hLE]
      simp only []
      rw [sigCheck_at_zero, hlenBE, if_pos hBE]
    · refine ⟨fun h => absurd h hLE, fun h => absurd h hBE, fun _ _ => ?_⟩
      rw [CheckStreamForUTF16BOM, sigCheck_at_zero, hlenLE, if_neg hLE]
      simp only []
      rw [sigCheck_at_zero, hlenBE, if_neg hBE]

/-- C7 witness: the big-endian BOM detected after the failed little-endian
attempt, with the incoming flag value true overwritten to false. -/
theorem c7_witness :
    CheckStreamForUTF16BOM ⟨[0xFE, 0xFF, 0x41], 0, false, false⟩ true =
      (true, false, ⟨[0xFE, 0xFF, 0x41], 2, false, false⟩) :=
  (c7_amended ⟨[0xFE, 0xFF, 0x41], 0, false, false⟩ true rfl rfl rfl).2.1 (by decide)

/-! C5: no step of the scan reads a byte outside the buffer. In the raw
memory model this is exactly extensional independence: two memories agreeing
on the buffer range give identical scans (validation, error classification,
byte dumps and all), so no index outside the range is ever consulted. -/

theorem memSlice_congr (mem mem' : Nat → Nat) (N p n : Nat)
    (hag : ∀ i, i < N → mem i = mem' i) (h : p + n ≤ N) :
    memSlice mem p n = memSlice mem' p n := by
  rw [memSlice, memSlice]
  apply List.map_congr_left
  intro j hj
  rw [List.mem_range] at hj
  exact hag (p + j) (by omega)

theorem cont_truncated_eq (f : Nat → Nat) (k r : Nat) :
    (UTF8InvalidNrOfContinuationBytes f k r).truncated = decide (k + 1 > r) := by
  rw [UTF8InvalidNrOfContinuationBytes]
  cases findMismatchAux f 1 ((if k + 1 > r then r else k + 1) - 1) <;> rfl

theorem leadCont_congr (mem mem' : Nat → Nat) (N stop p : Nat)
    (hag : ∀ i, i < N → mem i = mem' i) (hp : p < stop) (hN : stop ≤ N) :
    UTF8InvalidLeadingOrContinuation mem stop p =
      UTF8InvalidLeadingOrContinuation mem' stop p := by
  have h0 : mem p = mem' p := hag p (by omega)
  rw [UTF8InvalidLeadingOrContinuation, UTF8InvalidLeadingOrContinuation, h0]
  by_cases hL : (UTF8IsValidLeadingByte (mem' p)).1 = false
  · rw [if_pos hL, if_pos hL]
    simp only []
    have hbr : (if stop - p < (UTF8IsValidLeadingByte (mem' p)).2
        then stop - p else (UTF8IsValidLeadingByte (mem' p)).2) ≤ stop - p := by
      split_ifs <;> omega
    rw [memSlice_congr mem mem' N p _ hag (by omega)]
  · rw [if_neg hL, if_neg hL]
    rw [contBytes_congr (fun j => mem (p + j)) (fun j => mem' (p + j))
      ((UTF8IsValidLeadingByte (mem' p)).2 - 1) (stop - p)
      (fun j hj => hag (p + j) (by omega))]
    by_cases ht : (UTF8InvalidNrOfContinuationBytes (fun j => mem' (p + j))
        ((UTF8IsValidLeadingByte (mem' p)).2 - 1) (stop - p)).truncated = true
    · rw [if_pos ht, if_pos ht,
        memSlice_congr mem mem' N p (stop - p) hag (by omega)]
    · rw [if_neg ht, if_neg ht]
      by_cases hm : (UTF8InvalidNrOfContinuationBytes (fun j => mem' (p + j))
          ((UTF8IsValidLeadingByte (mem' p)).2 - 1) (stop - p)).mismatch = true
      · rw [if_pos hm, if_pos hm]
        have hlen : (UTF8IsValidLeadingByte (mem' p)).2 ≤ stop - p := by
          have h1 := leadLen_ge_one (mem' p)
          have h2 := cont_truncated_eq (fun j => mem' (p + j))
            ((UTF8IsValidLeadingByte (mem' p)).2 - 1) (stop - p)
          rw [Bool.not_eq_true] at ht
          rw [ht] at h2
          have h3 := of_decide_eq_false h2.symm
          omega
        rw [memSlice_congr mem mem' N p _ hag (by omega)]
      · rw [if_neg hm, if_neg hm]

theorem checkErrors_congr (mem mem' : Nat → Nat) (N stop p : Nat)
    (hag : ∀ i, i < N → mem i = mem' i) (hN : stop ≤ N) :
    UTF8CheckErrors mem stop p = UTF8CheckErrors mem' stop p := by
  rw [UTF8CheckErrors, UTF8CheckErrors]
  by_cases h1 : stop < p + 1
  · rw [if_pos h1, if_pos h1]
  · rw [if_neg h1, if_neg h1]
    have hp : p < stop := by omega
    rw [leadCont_congr mem mem' N stop p hag hp hN]
    cases hL : UTF8InvalidLeadingOrContinuation mem' stop p with
    | some pd => rfl
    | none =>
      have e0 : mem p = mem' p := hag p (by omega)
      rw [e0]
      by_cases hc : UTF8InvalidControlChar (mem' p) = true
      · rw [if_pos hc, if_pos hc, memSlice_congr mem mem' N p 1 hag (by omega)]
      · rw [if_neg hc, if_neg hc]
        by_cases h2 : stop < p + 2
        · rw [if_pos h2, if_pos h2,
            memSlice_congr mem mem' N p (stop - p) hag (by omega)]
        · rw [if_neg h2, if_neg h2]
          by_cases h3 : UTF8Invalid2BytesOverlong (mem' p) = true
          · rw [if_pos h3, if_pos h3, memSlice_congr mem mem' N p 2 hag (by omega)]
          · rw [if_neg h3, if_neg h3]
            by_cases h4 : stop < p + 3
            · rw [if_pos h4, if_pos h4,
                memSlice_congr mem mem' N p (stop - p) hag (by omega)]
            · rw [if_neg h4, if_neg h4]
              have e1 : mem (p + 1) = mem' (p + 1) := hag _ (by omega)
              rw [e1]
              by_cases h5 : UTF8Invalid3BytesOverlong (mem' p) (mem' (p + 1)) = true
              · rw [if_pos h5, if_pos h5,
                  memSlice_congr mem mem' N p 3 hag (by omega)]
              · rw [if_neg h5, if_neg h5]
                by_cases h6 : UTF8Invalid3BytesSurrogateHalf (mem' p)
                    (mem' (p + 1)) = true
                · rw [if_pos h6, if_pos h6,
                    memSlice_congr mem mem' N p 3 hag (by omega)]
                · rw [if_neg h6, if_neg h6]
                  by_cases h7 : stop < p + 4
                  · rw [if_pos h7, if_pos h7,
                      memSlice_congr mem mem' N p (stop - p) hag (by omega)]
                  · rw [if_neg h7, if_neg h7]
                    have e2 : mem (p + 2) = mem' (p + 2) := hag _ (by omega)
                    have e3 : mem (p + 3) = mem' (p + 3) := hag _ (by omega)
                    rw [e2, e3]
                    by_cases h8 : UTF8Invalid4BytesOverlong (mem' p)
                        (mem' (p + 1)) = true
                    · rw [if_pos h8, if_pos h8,
                        memSlice_congr mem mem' N p 4 hag (by omega)]
                    · rw [if_neg h8, if_neg h8]
                      cases hF : UTF8InvalidCodePoint4BytesF4 (mem' p) (mem' (p + 1))
                          (mem' (p + 2)) (mem' (p + 3)) with
                      | some cp =>
                        rw [memSlice_congr mem mem' N p 4 hag (by omega)]
                      | none =>
                        by_cases h9 : UTF8InvalidCodePoint4BytesNonF4 (mem' p) = true
                        · rw [if_pos h9, if_pos h9,
                            memSlice_congr mem mem' N p 4 hag (by omega)]
                        · rw [if_neg h9, if_neg h9]
                          simp only []
                          have hdump : (if 16 < stop - p then 16 else stop - p)
                              ≤ stop - p := by
                            split_ifs <;> omega
                          rw [memSlice_congr mem mem' N p _ hag (by omega)]

theorem validate_congr (bc : Bool) (mem mem' : Nat → Nat) (N stop p : Nat)
    (hag : ∀ i, i < N → mem i = mem' i) (hp : p < stop)
    (hN : bc = true → stop ≤ N) (hN' : bc = false → stop + 3 ≤ N) :
    UTF8CharValidate bc mem stop p = UTF8CharValidate bc mem' stop p := by
  cases bc
  · have hsN := hN' rfl
    have e0 : mem p = mem' p := hag p (by omega)
    have e1 : mem (p + 1) = mem' (p + 1) := hag _ (by omega)
    have e2 : mem (p + 2) = mem' (p + 2) := hag _ (by omega)
    have e3 : mem (p + 3) = mem' (p + 3) := hag _ (by omega)
    rw [UTF8CharValidate, UTF8CharValidate, e0, e1, e2, e3]
  · have hsN := hN rfl
    have e0 : mem p = mem' p := hag p (by omega)
    rw [UTF8CharValidate, UTF8CharValidate, e0]
    simp only [guardFalse true stop p 1 (fun _ => by omega), Bool.false_eq_true,
      if_false]
    by_cases ha : UTF8CharASCII7 (mem' p) = true
    · rw [if_pos ha, if_pos ha]
    · rw [if_neg ha, if_neg ha]
      by_cases g2 : stop < p + 2
      · have hg : (true && decide (stop < p + 2)) = true := by
          simp only [Bool.true_and, decide_eq_true_eq]
          exact g2
        rw [if_pos hg, if_pos hg]
      · have hg : ¬((true && decide (stop < p + 2)) = true) := by
          simp only [Bool.true_and, decide_eq_true_eq]
          exact g2
        rw [if_neg hg, if_neg hg]
        have e1 : mem (p + 1) = mem' (p + 1) := hag _ (by omega)
        rw [e1]
        by_cases v2 : UTF8CharValid2Bytes (mem' p) (mem' (p + 1)) = true
        · rw [if_pos v2, if_pos v2]
        · rw [if_neg v2, if_neg v2]
          by_cases g3 : stop < p + 3
          · have hg3 : (true && decide (stop < p + 3)) = true := by
              simp only [Bool.true_and, decide_eq_true_eq]
              exact g3
            rw [if_pos hg3, if_pos hg3]
          · have hg3 : ¬((true && decide (stop < p + 3)) = true) := by
              simp only [Bool.true_and, decide_eq_true_eq]
              exact g3
            rw [if_neg hg3, if_neg hg3]
            have e2 : mem (p + 2) = mem' (p + 2) := hag _ (by omega)
            rw [e2]
            by_cases v3 : UTF8CharValid3Bytes (mem' p) (mem' (p + 1))
                (mem' (p + 2)) = true
            · rw [if_pos v3, if_pos v3]
            · rw [if_neg v3, if_neg v3]
              by_cases g4 : stop < p + 4
              · have hg4 : (true && decide (stop < p + 4)) = true := by
                  simp only [Bool.true_and, decide_eq_true_eq]
                  exact g4
                rw [if_pos hg4, if_pos hg4]
              · have hg4 : ¬((true && decide (stop < p + 4)) = true) := by
                  simp only [Bool.true_and, decide_eq_true_eq]
                  exact g4
                rw [if_neg hg4, if_neg hg4]
                have e3 : mem (p + 3) = mem' (p + 3) := hag _ (by omega)
                rw [e3]

theorem scanStep_congr (bc : Bool) (mem mem' : Nat → Nat) (N stop : Nat)
    (hag : ∀ i, i < N → mem i = mem' i)
    (hN : bc = true → stop ≤ N) (hN' : bc = false → stop + 3 ≤ N)
    (st : ScanState) (hp : st.cursor < stop) :
    scanStep bc mem stop st = scanStep bc mem' stop st := by
  rw [scanStep, scanStep,
    validate_congr bc mem mem' N stop st.cursor hag hp hN hN']
  by_cases hv : (UTF8CharValidate bc mem' stop st.cursor).thisValid = true
  · rw [if_pos hv, if_pos hv]
  · rw [if_neg hv, if_neg hv]
    rw [Bool.not_eq_true] at hv
    rw [validate_invalid_cursor bc mem' stop st.cursor hv]
    have hsN : stop ≤ N := by
      cases bc
      · have := hN' rfl; omega
      · exact hN rfl
    rw [checkErrors_congr mem mem' N stop st.cursor hag hsN]

theorem scanLoop_congr (bc : Bool) (mem mem' : Nat → Nat) (N stop : Nat)
    (hag : ∀ i, i < N → mem i = mem' i)
    (hN : bc = true → stop ≤ N) (hN' : bc = false → stop + 3 ≤ N) :
    ∀ fuel (st : ScanState),
      scanLoop bc mem stop fuel st = scanLoop bc mem' stop fuel st := by
  intro fuel
  induction fuel with
  | zero => intro st; rfl
  | succ n ih =>
    intro st
    rw [scanLoop, scanLoop]
    by_cases hp : st.cursor < stop
    · rw [if_pos hp, if_pos hp]
      simp only []
      rw [scanStep_congr bc mem mem' N stop hag hN hN' st hp,
        ih (scanStep bc mem' stop st)]
    · rw [if_neg hp, if_neg hp]

/-- C5: the scan, in the bounds-checked mode over the whole buffer and in
the unchecked mode stopping UTF8_MAX_CHAR_SIZE bytes before the end, depends
only on the bytes at indices inside the buffer range [0, L): two memories
agreeing on that range produce identical scan results (cursor, flags and
every emitted diagnostic with its byte dumps), so no validation or
error-classification step ever reads an index outside the buffer. -/
theorem c5_no_out_of_buffer_read (mem mem' : Nat → Nat) (L : Nat)
    (hag : ∀ i, i < L → mem i = mem' i) :
    CheckStreamForUTF8NoBOMInternal true mem L =
      CheckStreamForUTF8NoBOMInternal true mem' L ∧
    (4 ≤ L →
      CheckStreamForUTF8NoBOMInternal false mem (L - UTF8_MAX_CHAR_SIZE) =
        CheckStreamForUTF8NoBOMInternal false mem' (L - UTF8_MAX_CHAR_SIZE)) := by
  constructor
  · rw [CheckStreamForUTF8NoBOMInternal, CheckStreamForUTF8NoBOMInternal]
    exact scanLoop_congr true mem mem' L L hag (fun _ => Nat.le_refl _)
      (fun h => absurd h (by simp)) L ⟨0, true, true, []⟩
  · intro hL
    rw [CheckStreamForUTF8NoBOMInternal, CheckStreamForUTF8NoBOMInternal]
    exact scanLoop_congr false mem mem' L (L - UTF8_MAX_CHAR_SIZE) hag
      (fun h => absurd h (by simp))
      (fun _ => by rw [UTF8_MAX_CHAR_SIZE]; omega)
      (L - UTF8_MAX_CHAR_SIZE) ⟨0, true, true, []⟩

/-- Two memories agreeing on the two-byte buffer range and differing beyond
it. -/
def memAgreeA : Nat → Nat := fun i => if i < 2 then 65 else 200

def memAgreeB : Nat → Nat := fun i => if i < 2 then 65 else 77

/-- C5 witness: the agreement theorem applied at a concrete pair of memories
that differ outside the buffer range. -/
theorem c5_witness :
    CheckStreamForUTF8NoBOMInternal true memAgreeA 2 =
      CheckStreamForUTF8NoBOMInternal true memAgreeB 2 :=
  (c5_no_out_of_buffer_read memAgreeA memAgreeB 2 (by decide)).1
